import Mathlib

/-!
# USB video-capture example: colour-bar frame source, streaming state, status LED

Shallow embedding of `examples/device/video_capture_zephyr/src/main.c` (the
configuration without `CFG_EXAMPLE_VIDEO_READONLY`, where the frame is painted
by `fill_color_bar`) and of the connection callbacks it shares with
`examples/device/cdc_msc_zephyr/src/main.c`.

* `FRAME_WIDTH`, `FRAME_HEIGHT` and `VIDEO_ERROR_NONE` are macros / enumerators
  of headers that are not part of the sources at hand; they are parameters
  (`W`, `H`, `VIDEO_ERROR_NONE`) of the definitions that use them.
* A `uint8_t *` into the frame buffer is the byte offset from `buffer`.
* `unsigned` is the 32-bit type of the target; `++frame_num` wraps. The offsets
  computed inside `fill_color_bar` stay within the frame buffer (see `write_bounds`),
  far below that range, and are plain natural numbers.
-/

namespace VideoCapture

/-! ## Memory reachable from `buffer`, with a record of the accesses -/

/-- One `memcpy` operand inside the buffer: `len` bytes from offset `off`. -/
structure Access where
  write : Bool
  off : Nat
  len : Nat
deriving DecidableEq, Repr

/-- The bytes reachable from `buffer` (by offset) and the accesses made so far. -/
structure Mem where
  bytes : Nat → Nat
  log : List Access

/-- The table `bar_color[8][4]` of `fill_color_bar` (Y, U, Y, V). -/
def bar_color : List (List Nat) :=
  [ [235, 128, 235, 128],  -- 100% White
    [219,  16, 219, 138],  -- Yellow
    [188, 154, 188,  16],  -- Cyan
    [173,  42, 173,  26],  -- Green
    [ 78, 214,  78, 230],  -- Magenta
    [ 63, 102,  63, 240],  -- Red
    [ 32, 240,  32, 118],  -- Blue
    [ 16, 128,  16, 128] ] -- Black

/-- Byte `b` of `bar_color[i]`. -/
def bar_byte (i b : Nat) : Nat := (bar_color.getD i []).getD b 0

/-- The call `memcpy(p, &bar_color[i], 4)`: four bytes of the table go to offset `p`. -/
def memcpy_bar (m : Mem) (p i : Nat) : Mem :=
  { bytes := fun a => if p ≤ a ∧ a < p + 4 then bar_byte i (a - p) else m.bytes a
    log := m.log ++ [⟨true, p, 4⟩] }

/-- The call `memcpy(p, buffer + src, n)` on two ranges of the buffer. -/
def memcpy_buf (m : Mem) (p src n : Nat) : Mem :=
  { bytes := fun a => if p ≤ a ∧ a < p + n then m.bytes (src + (a - p)) else m.bytes a
    log := m.log ++ [⟨false, src, n⟩, ⟨true, p, n⟩] }

/-- The memory together with the moving pointer `p` of `fill_color_bar`. -/
structure Cursor where
  mem : Mem
  p : Nat

/-! ## `fill_color_bar` -/

/-- Body of the inner loop: `memcpy(p, &bar_color[i], 4); p += 4; if (end <= p) p = buffer;`
with `end = &buffer[FRAME_WIDTH * 2]`. -/
def bar_body (W i : Nat) (s : Cursor) : Cursor :=
  let m := memcpy_bar s.mem s.p i
  let p := s.p + 4
  { mem := m, p := if W * 2 ≤ p then 0 else p }

/-- The loop `for (int j = 0; j < FRAME_WIDTH / (2 * 8); ++j)`, by the number of
iterations still to run. -/
def bar_loop (W i : Nat) : Nat → Cursor → Cursor
  | 0, s => s
  | n + 1, s => bar_loop W i n (bar_body W i s)

/-- The loop `for (unsigned i = 0; i < 8; ++i)`, by the number of iterations still to
run and the current `i`. -/
def color_loop (W : Nat) : Nat → Nat → Cursor → Cursor
  | 0, _, s => s
  | n + 1, i, s => color_loop W n (i + 1) (bar_loop W i (W / (2 * 8)) s)

/-- The part "Generate the 1st line" of `fill_color_bar`. -/
def first_line (W : Nat) (m : Mem) (start_position : Nat) : Cursor :=
  let idx := (W / 2 - 1) - (start_position % (W / 2))
  color_loop W 8 0 { mem := m, p := idx * 4 }

/-- Body of the copy loop: `memcpy(p, buffer, FRAME_WIDTH * 2); p += FRAME_WIDTH * 2;`. -/
def dup_body (W : Nat) (s : Cursor) : Cursor :=
  { mem := memcpy_buf s.mem s.p 0 (W * 2), p := s.p + W * 2 }

/-- The loop `for (unsigned i = 1; i < FRAME_HEIGHT; ++i)`, by the number of
iterations still to run (`FRAME_HEIGHT - 1` at the start). -/
def dup_loop (W : Nat) : Nat → Cursor → Cursor
  | 0, s => s
  | n + 1, s => dup_loop W n (dup_body W s)

/-- The part "Duplicate the 1st line to the others" of `fill_color_bar`. -/
def duplicate_lines (W H : Nat) (m : Mem) : Cursor :=
  dup_loop W (H - 1) { mem := m, p := W * 2 }

/-- The function `fill_color_bar(buffer, start_position)`; the result holds the buffer
after the call and the accesses the call made. -/
def fill_color_bar (W H : Nat) (buffer : Nat → Nat) (start_position : Nat) : Mem :=
  (duplicate_lines W H (first_line W ⟨buffer, []⟩ start_position).mem).mem

/-! ## Streaming state -/

/-- Number of values of `unsigned`, `2 ^ 32`. -/
def UINT_RANGE : Nat := 4294967296

/-- The statics `frame_num` and `frame_buffer`, and the buffer contents handed to
`tud_video_n_frame_xfer`, oldest first. -/
structure VideoState where
  frame_num : Nat
  frame_buffer : Nat → Nat
  xfers : List (Nat → Nat)

/-- The statics when `main` starts. -/
def boot : VideoState := { frame_num := 0, frame_buffer := fun _ => 0, xfers := [] }

/-- The function `video_send_frame`; `streaming` is what `tud_video_n_streaming(0, 0)`
returns and `xfer_ok` what `tud_video_n_frame_xfer` returns (the code drops it). -/
def video_send_frame (W H : Nat) (streaming xfer_ok : Bool) (s : VideoState) : VideoState :=
  if !streaming then
    { s with frame_num := 0 }
  else
    let frame_buffer := (fill_color_bar W H s.frame_buffer s.frame_num).bytes
    let _ := xfer_ok
    { s with frame_buffer := frame_buffer, xfers := s.xfers ++ [frame_buffer] }

/-- The callback `tud_video_frame_xfer_complete_cb`: `++frame_num`. -/
def tud_video_frame_xfer_complete_cb (s : VideoState) : VideoState :=
  { s with frame_num := (s.frame_num + 1) % UINT_RANGE }

/-- Modelled from the spec: the type `video_probe_and_commit_control_t` is declared in
the USB stack's headers; of its fields only the ones the spec names for the commit
parameters (format, frame, frame interval) are kept. -/
structure video_probe_and_commit_control_t where
  bFormatIndex : Nat
  bFrameIndex : Nat
  dwFrameInterval : Nat
deriving DecidableEq, Repr

/-- The callback `tud_video_commit_cb`: the return value and the statics after the call. -/
def tud_video_commit_cb (VIDEO_ERROR_NONE : Int) (parameters : video_probe_and_commit_control_t)
    (s : VideoState) : Int × VideoState :=
  let _ := parameters
  (VIDEO_ERROR_NONE, s)

/-- What can happen to the streaming state. -/
inductive Event where
  | tick (streaming xfer_ok : Bool)
  | xfer_complete
deriving DecidableEq, Repr

/-- One step of the streaming state. -/
def step (W H : Nat) (s : VideoState) : Event → VideoState
  | .tick streaming xfer_ok => video_send_frame W H streaming xfer_ok s
  | .xfer_complete => tud_video_frame_xfer_complete_cb s

/-- The steps of a list of events, in order. -/
def run (W H : Nat) (s : VideoState) (es : List Event) : VideoState :=
  es.foldl (step W H) s

/-- The schedule "a streaming tick, then its completion", `n` times. -/
def rounds : Nat → List Event
  | 0 => []
  | n + 1 => .tick true true :: .xfer_complete :: rounds n

end VideoCapture

/-! ## Status LED timer -/

/-- The timer `blinky_tm` as `k_timer_start(&tm, duration, period)` leaves it (ms). -/
structure k_timer where
  duration : Nat
  period : Nat
deriving DecidableEq, Repr

/-- The call `k_timer_start(timer, K_MSEC(duration), K_MSEC(period))`. -/
def k_timer_start (_timer : k_timer) (duration period : Nat) : k_timer :=
  { duration := duration, period := period }

namespace video_capture_zephyr

def BLINK_NOT_MOUNTED : Nat := 250
def BLINK_MOUNTED : Nat := 1000
def BLINK_SUSPENDED : Nat := 2500

/-- Invoked when device is mounted. -/
def tud_mount_cb (blinky_tm : k_timer) : k_timer :=
  k_timer_start blinky_tm BLINK_MOUNTED BLINK_MOUNTED

/-- Invoked when device is unmounted. -/
def tud_umount_cb (blinky_tm : k_timer) : k_timer :=
  k_timer_start blinky_tm BLINK_NOT_MOUNTED BLINK_NOT_MOUNTED

/-- Invoked when usb bus is suspended. -/
def tud_suspend_cb (remote_wakeup_en : Bool) (blinky_tm : k_timer) : k_timer :=
  let _ := remote_wakeup_en
  k_timer_start blinky_tm BLINK_SUSPENDED BLINK_SUSPENDED

/-- Invoked when usb bus is resumed; `mounted` is what `tud_mounted()` returns. -/
def tud_resume_cb (mounted : Bool) (blinky_tm : k_timer) : k_timer :=
  if mounted then
    k_timer_start blinky_tm BLINK_MOUNTED BLINK_MOUNTED
  else
    k_timer_start blinky_tm BLINK_NOT_MOUNTED BLINK_NOT_MOUNTED

end video_capture_zephyr

namespace cdc_msc_zephyr

def BLINK_NOT_MOUNTED : Nat := 250
def BLINK_MOUNTED : Nat := 1000
def BLINK_SUSPENDED : Nat := 2500

/-- Invoked when device is mounted. -/
def tud_mount_cb (blinky_tm : k_timer) : k_timer :=
  k_timer_start blinky_tm BLINK_MOUNTED BLINK_MOUNTED

/-- Invoked when device is unmounted. -/
def tud_umount_cb (blinky_tm : k_timer) : k_timer :=
  k_timer_start blinky_tm BLINK_NOT_MOUNTED BLINK_NOT_MOUNTED

/-- Invoked when usb bus is suspended. -/
def tud_suspend_cb (remote_wakeup_en : Bool) (blinky_tm : k_timer) : k_timer :=
  let _ := remote_wakeup_en
  k_timer_start blinky_tm BLINK_SUSPENDED BLINK_SUSPENDED

/-- Invoked when usb bus is resumed; `mounted` is what `tud_mounted()` returns. -/
def tud_resume_cb (mounted : Bool) (blinky_tm : k_timer) : k_timer :=
  if mounted then
    k_timer_start blinky_tm BLINK_MOUNTED BLINK_MOUNTED
  else
    k_timer_start blinky_tm BLINK_NOT_MOUNTED BLINK_NOT_MOUNTED

end cdc_msc_zephyr

namespace VideoCapture

/-! ## The copy loop -/

theorem dup_body_p (W : Nat) (s : Cursor) : (dup_body W s).p = s.p + W * 2 := rfl

theorem dup_body_bytes (W : Nat) (s : Cursor) (a : Nat) :
    (dup_body W s).mem.bytes a
      = if s.p ≤ a ∧ a < s.p + W * 2 then s.mem.bytes (0 + (a - s.p)) else s.mem.bytes a := rfl

/-- The copy loop leaves everything below its start pointer alone and makes each of the
`c` rows from the start pointer on a copy of row 0. -/
theorem dup_loop_bytes (W : Nat) : ∀ (c : Nat) (s : Cursor), W * 2 ≤ s.p →
    (∀ a, a < s.p → (dup_loop W c s).mem.bytes a = s.mem.bytes a) ∧
    (∀ j, j < c → ∀ k, k < W * 2 →
      (dup_loop W c s).mem.bytes (s.p + j * (W * 2) + k) = s.mem.bytes k) := by
  intro c
  induction c with
  | zero =>
    intro s _
    exact ⟨fun a _ => rfl, fun j hj => absurd hj (Nat.not_lt_zero j)⟩
  | succ c ih =>
    intro s hp
    have hp' : W * 2 ≤ (dup_body W s).p := by rw [dup_body_p]; omega
    obtain ⟨h1, h2⟩ := ih (dup_body W s) hp'
    rw [dup_body_p] at h1 h2
    refine ⟨?_, ?_⟩
    · intro a ha
      show (dup_loop W c (dup_body W s)).mem.bytes a = _
      rw [h1 a (by omega), dup_body_bytes, if_neg (by omega)]
    · intro j hj k hk
      show (dup_loop W c (dup_body W s)).mem.bytes _ = _
      cases j with
      | zero =>
        rw [Nat.zero_mul, Nat.add_zero, h1 (s.p + k) (by omega), dup_body_bytes,
          if_pos (by omega)]
        congr 1
        omega
      | succ j =>
        have e : s.p + (j + 1) * (W * 2) + k = s.p + W * 2 + j * (W * 2) + k := by
          rw [Nat.succ_mul]; omega
        rw [e, h2 j (by omega) k hk, dup_body_bytes, if_neg (by omega)]

/-- Row 0 of the buffer after `fill_color_bar` is the row the first-line loop wrote. -/
theorem fill_color_bar_row0 (W H : Nat) (buffer : Nat → Nat) (p a : Nat) (ha : a < W * 2) :
    (fill_color_bar W H buffer p).bytes a = (first_line W ⟨buffer, []⟩ p).mem.bytes a :=
  (dup_loop_bytes W (H - 1) ⟨(first_line W ⟨buffer, []⟩ p).mem, W * 2⟩ (Nat.le_refl _)).1 a ha

/-- Every further row of the buffer after `fill_color_bar` is a copy of row 0. -/
theorem fill_color_bar_rows (W H : Nat) (buffer : Nat → Nat) (p r k : Nat)
    (hr : r < H) (hk : k < W * 2) :
    (fill_color_bar W H buffer p).bytes (r * (W * 2) + k)
      = (fill_color_bar W H buffer p).bytes k := by
  cases r with
  | zero => simp
  | succ r =>
    have h := dup_loop_bytes W (H - 1) ⟨(first_line W ⟨buffer, []⟩ p).mem, W * 2⟩ (Nat.le_refl _)
    have h2 := h.2 r (by omega) k hk
    have h1 := h.1 k hk
    have e : (r + 1) * (W * 2) + k = W * 2 + r * (W * 2) + k := by
      rw [Nat.succ_mul]; omega
    rw [e]
    show (dup_loop W (H - 1) ⟨(first_line W ⟨buffer, []⟩ p).mem, W * 2⟩).mem.bytes _
      = (dup_loop W (H - 1) ⟨(first_line W ⟨buffer, []⟩ p).mem, W * 2⟩).mem.bytes k
    rw [h1]
    exact h2

/-! ## The first-line loop -/

theorem bar_body_p (W i : Nat) (s : Cursor) :
    (bar_body W i s).p = if W * 2 ≤ s.p + 4 then 0 else s.p + 4 := rfl

theorem bar_body_bytes (W i : Nat) (s : Cursor) (a : Nat) :
    (bar_body W i s).mem.bytes a
      = if s.p ≤ a ∧ a < s.p + 4 then bar_byte i (a - s.p) else s.mem.bytes a := rfl

theorem bar_body_log (W i : Nat) (s : Cursor) :
    (bar_body W i s).mem.log = s.mem.log ++ [⟨true, s.p, 4⟩] := rfl

/-- Two offsets below `M` that land on the same group after the same shift are equal. -/
theorem shift_mod_inj (M idx t k : Nat) (ht : t < M) (hk : k < M)
    (h : (idx + t) % M = (idx + k) % M) : t = k := by
  have h' : t ≡ k [MOD M] := Nat.ModEq.add_left_cancel' idx h
  unfold Nat.ModEq at h'
  rwa [Nat.mod_eq_of_lt ht, Nat.mod_eq_of_lt hk] at h'

/-- The group after group `q` of a row of `M` groups, as the wrap test computes it. -/
theorem shift_mod_succ (M x : Nat) : (x % M + 1) % M = (x + 1) % M :=
  Nat.ModEq.add_right 1 (Nat.mod_modEq x M)

/-- One pass through the loop body paints write number `k` and moves to the next group. -/
theorem bar_body_inv (nb idx i k : Nat) (s : Cursor)
    (hlo : i * nb ≤ k) (hhi : k < (i + 1) * nb) (hi : i < 8)
    (hp : s.p = 4 * ((idx + k) % (8 * nb)))
    (hb : ∀ t, t < k → ∀ b, b < 4 →
      s.mem.bytes (4 * ((idx + t) % (8 * nb)) + b) = bar_byte (t / nb) b) :
    (bar_body (16 * nb) i s).p = 4 * ((idx + (k + 1)) % (8 * nb)) ∧
    ∀ t, t < k + 1 → ∀ b, b < 4 →
      (bar_body (16 * nb) i s).mem.bytes (4 * ((idx + t) % (8 * nb)) + b)
        = bar_byte (t / nb) b := by
  have hnb : 0 < nb := by
    rcases Nat.eq_zero_or_pos nb with h | h
    · subst h; simp at hhi
    · exact h
  have hkM : k < 8 * nb := by
    have : (i + 1) * nb ≤ 8 * nb := Nat.mul_le_mul_right nb hi
    omega
  have hq : (idx + k) % (8 * nb) < 8 * nb := Nat.mod_lt _ (by omega)
  have e : (idx + (k + 1)) % (8 * nb) = ((idx + k) % (8 * nb) + 1) % (8 * nb) := by
    rw [shift_mod_succ, Nat.add_assoc]
  refine ⟨?_, ?_⟩
  · rw [bar_body_p, hp, e]
    generalize (idx + k) % (8 * nb) = q at hq
    by_cases h : q + 1 = 8 * nb
    · rw [if_pos (by omega), h, Nat.mod_self]
    · rw [if_neg (by omega), Nat.mod_eq_of_lt (by omega)]
      omega
  · intro t ht b hb4
    rw [bar_body_bytes, hp]
    by_cases htk : t = k
    · subst htk
      rw [if_pos (by omega), Nat.div_eq_of_lt_le hlo hhi]
      congr 1
      omega
    · have hne : (idx + t) % (8 * nb) ≠ (idx + k) % (8 * nb) := fun h =>
        htk (shift_mod_inj (8 * nb) idx t k (by omega) hkM h)
      have hqt : (idx + t) % (8 * nb) < 8 * nb := Nat.mod_lt _ (by omega)
      rw [if_neg (by omega)]
      exact hb t (by omega) b hb4

/-- The inner loop paints `c` further writes of bar `i`. -/
theorem bar_loop_inv (nb idx i : Nat) (hi : i < 8) : ∀ (c k : Nat) (s : Cursor),
    i * nb ≤ k → k + c ≤ (i + 1) * nb →
    s.p = 4 * ((idx + k) % (8 * nb)) →
    (∀ t, t < k → ∀ b, b < 4 →
      s.mem.bytes (4 * ((idx + t) % (8 * nb)) + b) = bar_byte (t / nb) b) →
    (bar_loop (16 * nb) i c s).p = 4 * ((idx + (k + c)) % (8 * nb)) ∧
    ∀ t, t < k + c → ∀ b, b < 4 →
      (bar_loop (16 * nb) i c s).mem.bytes (4 * ((idx + t) % (8 * nb)) + b)
        = bar_byte (t / nb) b := by
  intro c
  induction c with
  | zero => intro k s _ _ hp hb; exact ⟨hp, hb⟩
  | succ c ih =>
    intro k s hlo hhi hp hb
    obtain ⟨hp', hb'⟩ := bar_body_inv nb idx i k s hlo (by omega) hi hp hb
    have h := ih (k + 1) (bar_body (16 * nb) i s) (by omega) (by omega) hp' hb'
    have e : k + 1 + c = k + (c + 1) := by omega
    rw [e] at h
    exact h

/-- The outer loop paints the bars `i`, `i + 1`, ... one after the other. -/
theorem color_loop_inv (nb idx : Nat) : ∀ (fuel i : Nat) (s : Cursor),
    i + fuel ≤ 8 →
    s.p = 4 * ((idx + i * nb) % (8 * nb)) →
    (∀ t, t < i * nb → ∀ b, b < 4 →
      s.mem.bytes (4 * ((idx + t) % (8 * nb)) + b) = bar_byte (t / nb) b) →
    (color_loop (16 * nb) fuel i s).p = 4 * ((idx + (i + fuel) * nb) % (8 * nb)) ∧
    ∀ t, t < (i + fuel) * nb → ∀ b, b < 4 →
      (color_loop (16 * nb) fuel i s).mem.bytes (4 * ((idx + t) % (8 * nb)) + b)
        = bar_byte (t / nb) b := by
  intro fuel
  induction fuel with
  | zero => intro i s _ hp hb; exact ⟨hp, hb⟩
  | succ fuel ih =>
    intro i s hi hp hb
    have hdiv : 16 * nb / (2 * 8) = nb := by omega
    have e1 : i * nb + nb = (i + 1) * nb := (Nat.succ_mul i nb).symm
    obtain ⟨hp', hb'⟩ := bar_loop_inv nb idx i (by omega) nb (i * nb) s (Nat.le_refl _)
      (by omega) hp hb
    rw [e1] at hp' hb'
    have h := ih (i + 1) (bar_loop (16 * nb) i nb s) (by omega) hp' hb'
    have e2 : i + 1 + fuel = i + (fuel + 1) := by omega
    rw [e2] at h
    have e3 : color_loop (16 * nb) (fuel + 1) i s
        = color_loop (16 * nb) fuel (i + 1) (bar_loop (16 * nb) i nb s) := by
      rw [color_loop, hdiv]
    rw [e3]
    exact h

/-- Contents of the first line: with `nb = FRAME_WIDTH / 16`, group `g` of row 0 holds
the bar of write number `(g + 1 + start_position % (8 * nb)) % (8 * nb)`. -/
theorem first_line_bytes (nb : Nat) (hnb : 0 < nb) (m : Mem) (sp g b : Nat)
    (hg : g < 8 * nb) (hb : b < 4) :
    (first_line (16 * nb) m sp).mem.bytes (4 * g + b)
      = bar_byte ((g + 1 + sp % (8 * nb)) % (8 * nb) / nb) b := by
  have hdiv : 16 * nb / 2 = 8 * nb := by omega
  have hs : sp % (8 * nb) < 8 * nb := Nat.mod_lt _ (by omega)
  have e0 : first_line (16 * nb) m sp
      = color_loop (16 * nb) 8 0 ⟨m, (8 * nb - 1 - sp % (8 * nb)) * 4⟩ := by
    rw [first_line, hdiv]
  rw [e0]
  generalize sp % (8 * nb) = r at hs
  have ht : (g + 1 + r) % (8 * nb) < 8 * nb := Nat.mod_lt _ (by omega)
  have hidx : (8 * nb - 1 - r + 0 * nb) % (8 * nb) = 8 * nb - 1 - r := by
    rw [Nat.zero_mul, Nat.add_zero]
    exact Nat.mod_eq_of_lt (by omega)
  have h := color_loop_inv nb (8 * nb - 1 - r) 8 0 ⟨m, (8 * nb - 1 - r) * 4⟩ (by omega)
    (by rw [hidx]; exact Nat.mul_comm _ _)
    (fun t ht => by simp at ht)
  have h2 := h.2 ((g + 1 + r) % (8 * nb)) (by omega) b hb
  have e : (8 * nb - 1 - r + (g + 1 + r) % (8 * nb)) % (8 * nb) = g := by
    have h1 : (8 * nb - 1 - r + (g + 1 + r) % (8 * nb)) % (8 * nb)
        = (8 * nb - 1 - r + (g + 1 + r)) % (8 * nb) :=
      Nat.ModEq.add_left _ (Nat.mod_modEq _ _)
    have h3 : 8 * nb - 1 - r + (g + 1 + r) = g + 8 * nb := by omega
    rw [h1, h3, Nat.add_mod_right, Nat.mod_eq_of_lt hg]
  rw [e] at h2
  exact h2

/-- Byte `b` of group `x` after a cyclic shift, in bytes: rows are `4 * M` bytes long. -/
theorem group_byte_mod (M x b : Nat) (hM : 0 < M) (hb : b < 4) :
    (4 * x + b) % (4 * M) = 4 * (x % M) + b := by
  have hx := Nat.div_add_mod x M
  have hlt : x % M < M := Nat.mod_lt _ hM
  have e : 4 * x + b = 4 * (x % M) + b + 4 * M * (x / M) := by
    have : 4 * (M * (x / M) + x % M) = 4 * x := by rw [hx]
    rw [Nat.mul_add, ← Nat.mul_assoc] at this
    omega
  rw [e, Nat.add_mul_mod_self_left, Nat.mod_eq_of_lt (by omega)]

/-- Row 0 after `fill_color_bar`, byte by byte, for `FRAME_WIDTH = 16 * nb`. -/
theorem fill_color_bar_row0_bytes (nb H : Nat) (hnb : 0 < nb) (buffer : Nat → Nat)
    (sp k : Nat) (hk : k < 16 * nb * 2) :
    (fill_color_bar (16 * nb) H buffer sp).bytes k
      = bar_byte ((k / 4 + 1 + sp % (8 * nb)) % (8 * nb) / nb) (k % 4) := by
  rw [fill_color_bar_row0 _ _ _ _ _ hk]
  have h := first_line_bytes nb hnb ⟨buffer, []⟩ sp (k / 4) (k % 4) (by omega)
    (Nat.mod_lt _ (by omega))
  have e : 4 * (k / 4) + k % 4 = k := Nat.div_add_mod k 4
  rw [e] at h
  exact h

/-- The buffer after `fill_color_bar` does not depend on the buffer before, for
`FRAME_WIDTH = 16 * nb`. -/
theorem fill_color_bar_indep (nb H : Nat) (hnb : 0 < nb) (b1 b2 : Nat → Nat) (sp a : Nat)
    (ha : a < 16 * nb * H * 16 / 8) :
    (fill_color_bar (16 * nb) H b1 sp).bytes a = (fill_color_bar (16 * nb) H b2 sp).bytes a := by
  have hL : 0 < 16 * nb * 2 := by omega
  have hr : a / (16 * nb * 2) < H := by
    apply Nat.div_lt_of_lt_mul
    have e : 16 * nb * 2 * H = 16 * nb * H * 2 := by
      rw [Nat.mul_assoc, Nat.mul_comm 2 H, ← Nat.mul_assoc]
    omega
  have hk : a % (16 * nb * 2) < 16 * nb * 2 := Nat.mod_lt _ hL
  have e : a / (16 * nb * 2) * (16 * nb * 2) + a % (16 * nb * 2) = a := Nat.div_add_mod' a _
  rw [← e, fill_color_bar_rows _ _ _ _ _ _ hr hk, fill_color_bar_rows _ _ _ _ _ _ hr hk,
    fill_color_bar_row0_bytes nb H hnb b1 sp _ hk, fill_color_bar_row0_bytes nb H hnb b2 sp _ hk]

/-! ## Painting twice -/

/-- One pass through the loop body from two memories with the same pointer: a byte is
the same in both afterwards, or in each it is what that memory held before. -/
theorem bar_body_local (W i : Nat) (s s' : Cursor) (hp : s.p = s'.p) (a : Nat) :
    (bar_body W i s).p = (bar_body W i s').p ∧
    ((bar_body W i s).mem.bytes a = (bar_body W i s').mem.bytes a ∨
      ((bar_body W i s).mem.bytes a = s.mem.bytes a ∧
        (bar_body W i s').mem.bytes a = s'.mem.bytes a)) := by
  refine ⟨by rw [bar_body_p, bar_body_p, hp], ?_⟩
  rw [bar_body_bytes, bar_body_bytes, hp]
  by_cases h : s'.p ≤ a ∧ a < s'.p + 4
  · rw [if_pos h, if_pos h]; exact Or.inl rfl
  · rw [if_neg h, if_neg h]; exact Or.inr ⟨rfl, rfl⟩

theorem bar_loop_local (W i : Nat) : ∀ (c : Nat) (s s' : Cursor), s.p = s'.p →
    (bar_loop W i c s).p = (bar_loop W i c s').p ∧
    ∀ a, (bar_loop W i c s).mem.bytes a = (bar_loop W i c s').mem.bytes a ∨
      ((bar_loop W i c s).mem.bytes a = s.mem.bytes a ∧
        (bar_loop W i c s').mem.bytes a = s'.mem.bytes a) := by
  intro c
  induction c with
  | zero => intro s s' hp; exact ⟨hp, fun _ => Or.inr ⟨rfl, rfl⟩⟩
  | succ c ih =>
    intro s s' hp
    obtain ⟨hp2, h⟩ := ih (bar_body W i s) (bar_body W i s') (bar_body_local W i s s' hp 0).1
    refine ⟨hp2, fun a => ?_⟩
    show (bar_loop W i c (bar_body W i s)).mem.bytes a
        = (bar_loop W i c (bar_body W i s')).mem.bytes a ∨
      ((bar_loop W i c (bar_body W i s)).mem.bytes a = s.mem.bytes a ∧
        (bar_loop W i c (bar_body W i s')).mem.bytes a = s'.mem.bytes a)
    rcases h a with e | ⟨e1, e2⟩
    · exact Or.inl e
    · rcases (bar_body_local W i s s' hp a).2 with e | ⟨e3, e4⟩
      · exact Or.inl (e1.trans (e.trans e2.symm))
      · exact Or.inr ⟨e1.trans e3, e2.trans e4⟩

theorem color_loop_local (W : Nat) : ∀ (fuel i : Nat) (s s' : Cursor), s.p = s'.p →
    (color_loop W fuel i s).p = (color_loop W fuel i s').p ∧
    ∀ a, (color_loop W fuel i s).mem.bytes a = (color_loop W fuel i s').mem.bytes a ∨
      ((color_loop W fuel i s).mem.bytes a = s.mem.bytes a ∧
        (color_loop W fuel i s').mem.bytes a = s'.mem.bytes a) := by
  intro fuel
  induction fuel with
  | zero => intro i s s' hp; exact ⟨hp, fun _ => Or.inr ⟨rfl, rfl⟩⟩
  | succ fuel ih =>
    intro i s s' hp
    obtain ⟨hp1, h1⟩ := bar_loop_local W i (W / (2 * 8)) s s' hp
    obtain ⟨hp2, h⟩ := ih (i + 1) (bar_loop W i (W / (2 * 8)) s)
      (bar_loop W i (W / (2 * 8)) s') hp1
    refine ⟨hp2, fun a => ?_⟩
    show (color_loop W fuel (i + 1) (bar_loop W i (W / (2 * 8)) s)).mem.bytes a
        = (color_loop W fuel (i + 1) (bar_loop W i (W / (2 * 8)) s')).mem.bytes a ∨
      ((color_loop W fuel (i + 1) (bar_loop W i (W / (2 * 8)) s)).mem.bytes a = s.mem.bytes a ∧
        (color_loop W fuel (i + 1) (bar_loop W i (W / (2 * 8)) s')).mem.bytes a
          = s'.mem.bytes a)
    rcases h a with e | ⟨e1, e2⟩
    · exact Or.inl e
    · rcases h1 a with e | ⟨e3, e4⟩
      · exact Or.inl (e1.trans (e.trans e2.symm))
      · exact Or.inr ⟨e1.trans e3, e2.trans e4⟩

/-- The first-line loop from two memories: a byte is the same in both afterwards, or in
each it is what that memory held before. It holds for every `FRAME_WIDTH`. -/
theorem first_line_local (W : Nat) (m m' : Mem) (sp a : Nat) :
    (first_line W m sp).mem.bytes a = (first_line W m' sp).mem.bytes a ∨
      ((first_line W m sp).mem.bytes a = m.bytes a ∧
        (first_line W m' sp).mem.bytes a = m'.bytes a) :=
  (color_loop_local W 8 0 ⟨m, (W / 2 - 1 - sp % (W / 2)) * 4⟩
    ⟨m', (W / 2 - 1 - sp % (W / 2)) * 4⟩ rfl).2 a

/-- Painting the frame buffer a second time for the same phase changes no byte of it,
for every `FRAME_WIDTH` and `FRAME_HEIGHT`. -/
theorem fill_color_bar_idem (W H : Nat) (buffer : Nat → Nat) (sp a : Nat)
    (ha : a < W * H * 16 / 8) :
    (fill_color_bar W H (fill_color_bar W H buffer sp).bytes sp).bytes a
      = (fill_color_bar W H buffer sp).bytes a := by
  have row0 : ∀ k, k < W * 2 →
      (fill_color_bar W H (fill_color_bar W H buffer sp).bytes sp).bytes k
        = (fill_color_bar W H buffer sp).bytes k := by
    intro k hk
    rw [fill_color_bar_row0 W H _ sp k hk]
    rcases first_line_local W ⟨buffer, []⟩ ⟨(fill_color_bar W H buffer sp).bytes, []⟩ sp k
      with e | ⟨_, e2⟩
    · rw [← e, fill_color_bar_row0 W H buffer sp k hk]
    · exact e2
  have hL : 0 < W * 2 := by
    rcases Nat.eq_zero_or_pos W with h | h
    · subst h; simp at ha
    · omega
  have hr : a / (W * 2) < H := by
    apply Nat.div_lt_of_lt_mul
    have e : W * 2 * H = W * H * 2 := by
      rw [Nat.mul_assoc, Nat.mul_comm 2 H, ← Nat.mul_assoc]
    omega
  have hk : a % (W * 2) < W * 2 := Nat.mod_lt _ hL
  have e : a / (W * 2) * (W * 2) + a % (W * 2) = a := Nat.div_add_mod' a _
  rw [← e, fill_color_bar_rows _ _ _ _ _ _ hr hk, fill_color_bar_rows _ _ _ _ _ _ hr hk]
  exact row0 _ hk

/-! ## Where `fill_color_bar` reads and writes -/

/-- One pass through the loop body writes four bytes inside row 0 and keeps the pointer
on a group of row 0 (`M` groups per row). -/
theorem bar_body_bounds (W M i : Nat) (hW : W * 2 = 4 * M) (s : Cursor)
    (hp : ∃ q, q < M ∧ s.p = 4 * q)
    (hl : ∀ a ∈ s.mem.log, a.write = true ∧ a.len = 4 ∧ a.off + 4 ≤ W * 2) :
    (∃ q, q < M ∧ (bar_body W i s).p = 4 * q) ∧
    (∀ a ∈ (bar_body W i s).mem.log, a.write = true ∧ a.len = 4 ∧ a.off + 4 ≤ W * 2) ∧
    (bar_body W i s).mem.log.length = s.mem.log.length + 1 := by
  obtain ⟨q, hq, hpq⟩ := hp
  refine ⟨?_, ?_, ?_⟩
  · rw [bar_body_p, hpq]
    by_cases h : W * 2 ≤ 4 * q + 4
    · rw [if_pos h]; exact ⟨0, by omega, rfl⟩
    · rw [if_neg h]; exact ⟨q + 1, by omega, by omega⟩
  · intro a ha
    rw [bar_body_log, List.mem_append, List.mem_singleton] at ha
    rcases ha with ha | ha
    · exact hl a ha
    · subst ha
      exact ⟨rfl, rfl, by show s.p + 4 ≤ W * 2; omega⟩
  · rw [bar_body_log, List.length_append, List.length_singleton]

theorem bar_loop_bounds (W M i : Nat) (hW : W * 2 = 4 * M) : ∀ (c : Nat) (s : Cursor),
    (∃ q, q < M ∧ s.p = 4 * q) →
    (∀ a ∈ s.mem.log, a.write = true ∧ a.len = 4 ∧ a.off + 4 ≤ W * 2) →
    (∃ q, q < M ∧ (bar_loop W i c s).p = 4 * q) ∧
    (∀ a ∈ (bar_loop W i c s).mem.log, a.write = true ∧ a.len = 4 ∧ a.off + 4 ≤ W * 2) ∧
    (bar_loop W i c s).mem.log.length = s.mem.log.length + c := by
  intro c
  induction c with
  | zero => intro s hp hl; exact ⟨hp, hl, rfl⟩
  | succ c ih =>
    intro s hp hl
    obtain ⟨hp1, hl1, hn1⟩ := bar_body_bounds W M i hW s hp hl
    obtain ⟨hp2, hl2, hn2⟩ := ih (bar_body W i s) hp1 hl1
    refine ⟨hp2, hl2, ?_⟩
    show (bar_loop W i c (bar_body W i s)).mem.log.length = _
    rw [hn2, hn1]
    omega

theorem color_loop_bounds (W M : Nat) (hW : W * 2 = 4 * M) : ∀ (fuel i : Nat) (s : Cursor),
    (∃ q, q < M ∧ s.p = 4 * q) →
    (∀ a ∈ s.mem.log, a.write = true ∧ a.len = 4 ∧ a.off + 4 ≤ W * 2) →
    (∃ q, q < M ∧ (color_loop W fuel i s).p = 4 * q) ∧
    (∀ a ∈ (color_loop W fuel i s).mem.log,
      a.write = true ∧ a.len = 4 ∧ a.off + 4 ≤ W * 2) ∧
    (color_loop W fuel i s).mem.log.length = s.mem.log.length + fuel * (W / (2 * 8)) := by
  intro fuel
  induction fuel with
  | zero =>
    intro i s hp hl
    refine ⟨hp, hl, ?_⟩
    show s.mem.log.length = s.mem.log.length + 0 * (W / (2 * 8))
    rw [Nat.zero_mul, Nat.add_zero]
  | succ fuel ih =>
    intro i s hp hl
    obtain ⟨hp1, hl1, hn1⟩ := bar_loop_bounds W M i hW (W / (2 * 8)) s hp hl
    obtain ⟨hp2, hl2, hn2⟩ := ih (i + 1) (bar_loop W i (W / (2 * 8)) s) hp1 hl1
    refine ⟨hp2, hl2, ?_⟩
    have e := Nat.succ_mul fuel (W / (2 * 8))
    show (color_loop W fuel (i + 1) (bar_loop W i (W / (2 * 8)) s)).mem.log.length = _
    rw [hn2, hn1, e]
    omega

/-- The first-line loop of an even, positive `FRAME_WIDTH` makes `8 * (FRAME_WIDTH / 16)`
writes of four bytes, all inside row 0. -/
theorem first_line_bounds (W : Nat) (hW : 2 ∣ W) (hpos : 0 < W) (buffer : Nat → Nat) (sp : Nat) :
    (∀ a ∈ (first_line W ⟨buffer, []⟩ sp).mem.log,
      a.write = true ∧ a.len = 4 ∧ a.off + 4 ≤ W * 2) ∧
    (first_line W ⟨buffer, []⟩ sp).mem.log.length = 8 * (W / (2 * 8)) := by
  have hW2 : W * 2 = 4 * (W / 2) := by omega
  have hM : 0 < W / 2 := by omega
  have hs : sp % (W / 2) < W / 2 := Nat.mod_lt _ hM
  have h := color_loop_bounds W (W / 2) hW2 8 0 ⟨⟨buffer, []⟩, (W / 2 - 1 - sp % (W / 2)) * 4⟩
    ⟨W / 2 - 1 - sp % (W / 2), by omega, Nat.mul_comm _ _⟩
    (fun a ha => absurd ha (List.not_mem_nil a))
  refine ⟨h.2.1, ?_⟩
  have h3 := h.2.2
  simp only [List.length_nil, Nat.zero_add] at h3
  exact h3

/-- The copy loop stays below `B` when its last row ends there. -/
theorem dup_loop_bounds (W B : Nat) : ∀ (c : Nat) (s : Cursor),
    W * 2 ≤ s.p → s.p + c * (W * 2) ≤ B →
    (∀ a ∈ s.mem.log, a.off + a.len ≤ B) →
    ∀ a ∈ (dup_loop W c s).mem.log, a.off + a.len ≤ B := by
  intro c
  induction c with
  | zero => intro s _ _ hl; exact hl
  | succ c ih =>
    intro s hp hB hl
    rw [Nat.succ_mul] at hB
    apply ih (dup_body W s) (by rw [dup_body_p]; omega) (by rw [dup_body_p]; omega)
    intro a ha
    have e : (dup_body W s).mem.log = s.mem.log ++ [⟨false, 0, W * 2⟩, ⟨true, s.p, W * 2⟩] := rfl
    rw [e, List.mem_append] at ha
    rcases ha with ha | ha
    · exact hl a ha
    · simp only [List.mem_cons, List.mem_singleton, List.not_mem_nil, or_false] at ha
      rcases ha with ha | ha
      · subst ha; show 0 + W * 2 ≤ B; omega
      · subst ha; show s.p + W * 2 ≤ B; omega

/-! ## The colour-bar pattern -/

/-- C1, as stated, fails for a 128 x 96 frame at phase 0: the last group of row 0
(group 63) holds White, not `bar_color[7]` (Black), and group 7 holds Yellow, not
`bar_color[0]` (White). -/
theorem first_row_phase_zero_counterexample :
    (16 ∣ 128 ∧ 0 < 128 ∧ 63 < 128 / 2 ∧ 7 < 128 / 2) ∧
    (fill_color_bar 128 96 (fun _ => 0) 0).bytes (4 * 63 + 0) = bar_byte 0 0 ∧
    (fill_color_bar 128 96 (fun _ => 0) 0).bytes (4 * 63 + 0) ≠ bar_byte (63 / (128 / 16)) 0 ∧
    (fill_color_bar 128 96 (fun _ => 0) 0).bytes (4 * 7 + 0) = bar_byte 1 0 ∧
    (fill_color_bar 128 96 (fun _ => 0) 0).bytes (4 * 7 + 0) ≠ bar_byte (7 / (128 / 16)) 0 := by
  set_option maxRecDepth 1000000 in decide

/-- C1 (amended): for phase 0 and `FRAME_WIDTH` a positive multiple of 16, the first row
holds the reference sequence `bar_color[0..7]` started at the last 4-byte group of the
row and continued from column 0: for every group `g < FRAME_WIDTH / 2`, bytes
`4g .. 4g+3` equal `bar_color[((g + 1) mod (FRAME_WIDTH / 2)) / (FRAME_WIDTH / 16)]`. -/
theorem first_row_phase_zero (W H : Nat) (buffer : Nat → Nat) (g b : Nat)
    (hW : 16 ∣ W) (hpos : 0 < W) (hg : g < W / 2) (hb : b < 4) :
    (fill_color_bar W H buffer 0).bytes (4 * g + b)
      = bar_byte ((g + 1) % (W / 2) / (W / 16)) b := by
  obtain ⟨nb, rfl⟩ := hW
  have e2 : 16 * nb / 2 = 8 * nb := by omega
  have e16 : 16 * nb / 16 = nb := by omega
  rw [e2] at hg
  rw [e2, e16, fill_color_bar_row0_bytes nb H (by omega) buffer 0 _ (by omega)]
  have e4 : (4 * g + b) / 4 = g := by omega
  have e5 : (4 * g + b) % 4 = b := by omega
  rw [e4, e5, Nat.zero_mod, Nat.add_zero]

theorem first_row_phase_zero_witness :
    (16 ∣ 32 ∧ 0 < 32 ∧ 15 < 32 / 2 ∧ 3 < 4) ∧
    (fill_color_bar 32 4 (fun a => a) 0).bytes (4 * 15 + 3)
      = bar_byte ((15 + 1) % (32 / 2) / (32 / 16)) 3 :=
  ⟨by decide, first_row_phase_zero 32 4 (fun a => a) 15 3 (by decide) (by decide) (by decide)
    (by decide)⟩

/-- C2, as stated, fails for a 128 x 96 frame at phase 1: one pixel is two bytes, and the
row for phase 1 is the row for phase 0 moved by one pixel in neither direction (the
bytes at offset 24 differ either way). -/
theorem first_row_shift_counterexample :
    (16 ∣ 128 ∧ 0 < 128 ∧ 24 < 2 * 128) ∧
    (fill_color_bar 128 96 (fun _ => 0) 1).bytes 24
      ≠ (fill_color_bar 128 96 (fun _ => 0) 0).bytes ((24 + 2 * (1 % (128 / 2))) % (2 * 128)) ∧
    (fill_color_bar 128 96 (fun _ => 0) 1).bytes ((24 + 2 * (1 % (128 / 2))) % (2 * 128))
      ≠ (fill_color_bar 128 96 (fun _ => 0) 0).bytes 24 := by
  set_option maxRecDepth 1000000 in decide

/-- C2 (amended): for every phase `p` and `FRAME_WIDTH` a positive multiple of 16, the
first row for phase `p` is the first row for phase 0 moved cyclically towards column 0
by `p mod (FRAME_WIDTH / 2)` groups of 4 bytes (two pixels each): byte `k` of the row for
`p` is byte `(k + 4 * (p mod (FRAME_WIDTH / 2))) mod (2 * FRAME_WIDTH)` of the row for
phase 0, whatever the buffers held before; and phases `p` and `p + FRAME_WIDTH / 2` give
the same row. -/
theorem first_row_shift (W H : Nat) (buf0 buf1 : Nat → Nat) (p k : Nat)
    (hW : 16 ∣ W) (hpos : 0 < W) (hk : k < 2 * W) :
    (fill_color_bar W H buf1 p).bytes k
      = (fill_color_bar W H buf0 0).bytes ((k + 4 * (p % (W / 2))) % (2 * W)) ∧
    (fill_color_bar W H buf1 (p + W / 2)).bytes k = (fill_color_bar W H buf0 p).bytes k := by
  obtain ⟨nb, rfl⟩ := hW
  have hnb : 0 < nb := by omega
  have e2 : 16 * nb / 2 = 8 * nb := by omega
  have eL : 2 * (16 * nb) = 4 * (8 * nb) := by omega
  have hk2 : k < 16 * nb * 2 := by omega
  rw [e2, eL]
  refine ⟨?_, ?_⟩
  · have ek : k + 4 * (p % (8 * nb)) = 4 * (k / 4 + p % (8 * nb)) + k % 4 := by omega
    have hlt : (k / 4 + p % (8 * nb)) % (8 * nb) < 8 * nb := Nat.mod_lt _ (by omega)
    rw [ek, group_byte_mod (8 * nb) _ _ (by omega) (Nat.mod_lt _ (by omega)),
      fill_color_bar_row0_bytes nb H hnb buf1 p k hk2,
      fill_color_bar_row0_bytes nb H hnb buf0 0 _ (by omega)]
    have e4 : (4 * ((k / 4 + p % (8 * nb)) % (8 * nb)) + k % 4) / 4
        = (k / 4 + p % (8 * nb)) % (8 * nb) := by omega
    have e5 : (4 * ((k / 4 + p % (8 * nb)) % (8 * nb)) + k % 4) % 4 = k % 4 := by omega
    have e6 : k / 4 + 1 + p % (8 * nb) = k / 4 + p % (8 * nb) + 1 := by omega
    rw [e4, e5, Nat.zero_mod, Nat.add_zero, shift_mod_succ, e6]
  · rw [fill_color_bar_row0_bytes nb H hnb buf1 _ k hk2,
      fill_color_bar_row0_bytes nb H hnb buf0 p k hk2, Nat.add_mod_right]

theorem first_row_shift_witness :
    (16 ∣ 16 ∧ 0 < 16 ∧ 5 < 2 * 16) ∧
    ((fill_color_bar 16 2 (fun a => a) 11).bytes 5
      = (fill_color_bar 16 2 (fun _ => 0) 0).bytes ((5 + 4 * (11 % (16 / 2))) % (2 * 16)) ∧
    (fill_color_bar 16 2 (fun a => a) (11 + 16 / 2)).bytes 5
      = (fill_color_bar 16 2 (fun _ => 0) 11).bytes 5) :=
  ⟨by decide, first_row_shift 16 2 (fun _ => 0) (fun a => a) 11 5 (by decide) (by decide)
    (by decide)⟩

/-- C3: for every phase and every initial buffer content, after `fill_color_bar` every
row `r` with `1 ≤ r < FRAME_HEIGHT` equals row 0:
`buffer[r*2*FRAME_WIDTH + k] = buffer[k]` for every `k < 2*FRAME_WIDTH`. -/
theorem row_replication (W H : Nat) (buffer : Nat → Nat) (p r k : Nat)
    (_hr1 : 1 ≤ r) (hr : r < H) (hk : k < 2 * W) :
    (fill_color_bar W H buffer p).bytes (r * 2 * W + k)
      = (fill_color_bar W H buffer p).bytes k := by
  have e : r * 2 * W = r * (W * 2) := by rw [Nat.mul_assoc, Nat.mul_comm 2 W]
  rw [e]
  exact fill_color_bar_rows W H buffer p r k hr (by omega)

theorem row_replication_witness :
    (1 ≤ 2 ∧ 2 < 3 ∧ 9 < 2 * 16) ∧
    (fill_color_bar 16 3 (fun a => a) 5).bytes (2 * 2 * 16 + 9)
      = (fill_color_bar 16 3 (fun a => a) 5).bytes 9 :=
  ⟨by decide, row_replication 16 3 (fun a => a) 5 2 9 (by decide) (by decide) (by decide)⟩

/-- C4, as stated, fails for a frame 24 pixels wide: the first-line loop makes
`8 * (24 / 16) = 8` writes for the 12 groups of row 0, so byte 28 of the buffer keeps
what it held before the call, and two initial contents give two results. -/
theorem produce_deterministic_counterexample :
    28 < 24 * 1 * 16 / 8 ∧
    (fill_color_bar 24 1 (fun _ => 0) 0).bytes 28 = 0 ∧
    (fill_color_bar 24 1 (fun _ => 7) 0).bytes 28 = 7 ∧
    (fill_color_bar 24 1 (fun _ => 0) 0).bytes 28
      ≠ (fill_color_bar 24 1 (fun _ => 7) 0).bytes 28 := by
  decide

/-- C4 (amended): for `FRAME_WIDTH` a positive multiple of 16, the frame produced by
`fill_color_bar` depends on the phase alone: for any phase and any two initial contents
of the frame buffer, every byte of the `FRAME_WIDTH * FRAME_HEIGHT * 16 / 8`-byte buffer
is the same after the call. -/
theorem produce_deterministic (W H : Nat) (buf1 buf2 : Nat → Nat) (p a : Nat)
    (hW : 16 ∣ W) (hpos : 0 < W) (ha : a < W * H * 16 / 8) :
    (fill_color_bar W H buf1 p).bytes a = (fill_color_bar W H buf2 p).bytes a := by
  obtain ⟨nb, rfl⟩ := hW
  exact fill_color_bar_indep nb H (by omega) buf1 buf2 p a ha

theorem produce_deterministic_witness :
    (16 ∣ 16 ∧ 0 < 16 ∧ 70 < 16 * 3 * 16 / 8) ∧
    (fill_color_bar 16 3 (fun a => a) 9).bytes 70
      = (fill_color_bar 16 3 (fun _ => 255) 9).bytes 70 :=
  ⟨by decide, produce_deterministic 16 3 (fun a => a) (fun _ => 255) 9 70 (by decide)
    (by decide) (by decide)⟩

/-- C10: for every `start_position`, `FRAME_WIDTH` a positive multiple of 16 and
`FRAME_HEIGHT ≥ 1`, the first-line loop makes `FRAME_WIDTH / 2` writes, each of 4 bytes at
an offset `o` with `0 ≤ o` and `o + 4 ≤ 2 * FRAME_WIDTH`, and every access of the whole
call (first-line writes, row-copy reads and writes) ends at or below
`FRAME_WIDTH * FRAME_HEIGHT * 16 / 8`, the size of the frame buffer. -/
theorem write_bounds (W H : Nat) (buffer : Nat → Nat) (start_position : Nat)
    (hW : 16 ∣ W) (hpos : 0 < W) (hH : 1 ≤ H) :
    (∀ a ∈ (first_line W ⟨buffer, []⟩ start_position).mem.log,
      a.write = true ∧ a.len = 4 ∧ 0 ≤ a.off ∧ a.off + 4 ≤ 2 * W) ∧
    (first_line W ⟨buffer, []⟩ start_position).mem.log.length = W / 2 ∧
    (∀ a ∈ (fill_color_bar W H buffer start_position).log,
      a.off + a.len ≤ W * H * 16 / 8) := by
  obtain ⟨h1, h2⟩ := first_line_bounds W (Dvd.dvd.trans (by decide) hW) hpos buffer start_position
  have hB : W * 2 + (H - 1) * (W * 2) = W * H * 16 / 8 := by
    obtain ⟨h, rfl⟩ : ∃ h, H = h + 1 := ⟨H - 1, by omega⟩
    have e : W * (h + 1) = h * W + W := by rw [Nat.mul_comm, Nat.succ_mul]
    have e' : h * (W * 2) = h * W * 2 := by rw [Nat.mul_assoc]
    rw [Nat.add_sub_cancel, e, e']
    omega
  refine ⟨fun a ha => ?_, ?_, ?_⟩
  · obtain ⟨hw, hl, ho⟩ := h1 a ha
    exact ⟨hw, hl, Nat.zero_le _, by omega⟩
  · obtain ⟨nb, rfl⟩ := hW
    rw [h2]
    omega
  · apply dup_loop_bounds W (W * H * 16 / 8) (H - 1)
      ⟨(first_line W ⟨buffer, []⟩ start_position).mem, W * 2⟩ (Nat.le_refl _)
      (by show W * 2 + (H - 1) * (W * 2) ≤ _; omega)
    intro a ha
    obtain ⟨_, hl, ho⟩ := h1 a ha
    rw [hl]
    have : W * 2 ≤ W * H * 16 / 8 := by omega
    omega

theorem write_bounds_witness :
    (16 ∣ 16 ∧ 0 < 16 ∧ 1 ≤ 2) ∧
    ((∀ a ∈ (first_line 16 ⟨fun _ => 0, []⟩ 3).mem.log,
      a.write = true ∧ a.len = 4 ∧ 0 ≤ a.off ∧ a.off + 4 ≤ 2 * 16) ∧
    (first_line 16 ⟨fun _ => 0, []⟩ 3).mem.log.length = 16 / 2 ∧
    (∀ a ∈ (fill_color_bar 16 2 (fun _ => 0) 3).log, a.off + a.len ≤ 16 * 2 * 16 / 8)) :=
  ⟨by decide, write_bounds 16 2 (fun _ => 0) 3 (by decide) (by decide) (by decide)⟩

/-! ## The streaming state -/

theorem video_send_frame_streaming (W H : Nat) (ok : Bool) (s : VideoState) :
    video_send_frame W H true ok s
      = { s with frame_buffer := (fill_color_bar W H s.frame_buffer s.frame_num).bytes,
                 xfers := s.xfers ++ [(fill_color_bar W H s.frame_buffer s.frame_num).bytes] } :=
  rfl

theorem video_send_frame_idle (W H : Nat) (ok : Bool) (s : VideoState) :
    video_send_frame W H false ok s = { s with frame_num := 0 } := rfl

theorem run_cons (W H : Nat) (s : VideoState) (e : Event) (es : List Event) :
    run W H s (e :: es) = run W H (step W H s e) es := rfl

/-- A run of streaming ticks keeps `frame_num` and, on the frame buffer, repaints what
the buffer holds after the first of them. -/
theorem streaming_ticks_keep (W H : Nat) :
    ∀ (oks : List Bool) (s : VideoState) (ok : Bool),
      (run W H (video_send_frame W H true ok s)
          (oks.map (fun o => Event.tick true o))).frame_num = s.frame_num ∧
      ∀ a, a < W * H * 16 / 8 →
        (run W H (video_send_frame W H true ok s)
            (oks.map (fun o => Event.tick true o))).frame_buffer a
          = (video_send_frame W H true ok s).frame_buffer a := by
  intro oks
  induction oks with
  | nil => intro s ok; exact ⟨rfl, fun _ _ => rfl⟩
  | cons o oks ih =>
    intro s ok
    obtain ⟨h1, h2⟩ := ih (video_send_frame W H true ok s) o
    rw [List.map_cons, run_cons]
    refine ⟨h1, fun a ha => ?_⟩
    show (run W H (video_send_frame W H true o (video_send_frame W H true ok s)) _).frame_buffer a
      = _
    rw [h2 a ha]
    exact fill_color_bar_idem W H s.frame_buffer s.frame_num a ha

/-- The schedule `rounds n` from a state whose `frame_num` stays below the range of
`unsigned`: the counter, and the contents handed to the transport. The content of round
`j` is what `fill_color_bar` paints for phase `frame_num + j` on the buffer that round
found: the buffer of the state for `j = 0`, the content of round `j - 1` after that. -/
theorem rounds_run (W H : Nat) : ∀ (n : Nat) (s : VideoState),
    s.frame_num + n < UINT_RANGE →
    (run W H s (rounds n)).frame_num = s.frame_num + n ∧
    (run W H s (rounds n)).xfers.length = s.xfers.length + n ∧
    (∀ j, j < s.xfers.length → (run W H s (rounds n)).xfers.get? j = s.xfers.get? j) ∧
    (∀ j, j < n → ∃ b,
      (run W H s (rounds n)).xfers.get? (s.xfers.length + j)
        = some (fill_color_bar W H b (s.frame_num + j)).bytes ∧
      (j = 0 → b = s.frame_buffer) ∧
      (∀ i, j = i + 1 → (run W H s (rounds n)).xfers.get? (s.xfers.length + i) = some b)) := by
  intro n
  induction n with
  | zero =>
    intro s _
    exact ⟨rfl, rfl, fun _ _ => rfl, fun j hj => absurd hj (Nat.not_lt_zero j)⟩
  | succ n ih =>
    intro s hs
    have hfn : (tud_video_frame_xfer_complete_cb (video_send_frame W H true true s)).frame_num
        = s.frame_num + 1 := by
      show (s.frame_num + 1) % UINT_RANGE = _
      exact Nat.mod_eq_of_lt (by omega)
    have hxf : (tud_video_frame_xfer_complete_cb (video_send_frame W H true true s)).xfers
        = s.xfers ++ [(fill_color_bar W H s.frame_buffer s.frame_num).bytes] := rfl
    have hfb : (tud_video_frame_xfer_complete_cb (video_send_frame W H true true s)).frame_buffer
        = (fill_color_bar W H s.frame_buffer s.frame_num).bytes := rfl
    have hrun : run W H s (rounds (n + 1))
        = run W H (tud_video_frame_xfer_complete_cb (video_send_frame W H true true s))
            (rounds n) := rfl
    obtain ⟨h1, h2, h3, h4⟩ :=
      ih (tud_video_frame_xfer_complete_cb (video_send_frame W H true true s))
        (by rw [hfn]; omega)
    rw [hfn] at h1 h4
    rw [hfb] at h4
    rw [hxf, List.length_append, List.length_singleton] at h2 h3 h4
    rw [hrun]
    have h0 : (run W H (tud_video_frame_xfer_complete_cb (video_send_frame W H true true s))
        (rounds n)).xfers.get? s.xfers.length
          = some (fill_color_bar W H s.frame_buffer s.frame_num).bytes := by
      rw [h3 _ (by omega), List.get?_eq_getElem?,
        List.getElem?_append_right (Nat.le_refl _), Nat.sub_self]
      rfl
    refine ⟨by omega, by omega, ?_, ?_⟩
    · intro j hj
      rw [h3 j (by omega), List.get?_eq_getElem?, List.get?_eq_getElem?,
        List.getElem?_append_left hj]
    · intro j hj
      cases j with
      | zero =>
        refine ⟨s.frame_buffer, ?_, fun _ => rfl, fun i hi => absurd hi (by omega)⟩
        rw [Nat.add_zero, Nat.add_zero]
        exact h0
      | succ j =>
        obtain ⟨b, hb, hb0, hbs⟩ := h4 j (by omega)
        have e1 : s.xfers.length + (j + 1) = s.xfers.length + 1 + j := by omega
        have e2 : s.frame_num + (j + 1) = s.frame_num + 1 + j := by omega
        refine ⟨b, by rw [e1, e2]; exact hb, fun h => absurd h (by omega), fun i hi => ?_⟩
        have hij : i = j := by omega
        subst hij
        cases i with
        | zero =>
          rw [hb0 rfl, Nat.add_zero]
          exact h0
        | succ i =>
          have e3 : s.xfers.length + (i + 1) = s.xfers.length + 1 + i := by omega
          rw [e3]
          exact hbs i rfl

/-- C5, as stated, fails at `frame_num = UINT_MAX`: the completion event takes the
counter to 0, which is neither `frame_num + 1` nor an increase. -/
theorem frame_num_step_counterexample :
    (step 128 96 ⟨4294967295, fun _ => 0, []⟩ Event.xfer_complete).frame_num = 0 ∧
    (step 128 96 ⟨4294967295, fun _ => 0, []⟩ Event.xfer_complete).frame_num ≠ 4294967295 + 1 ∧
    (step 128 96 ⟨4294967295, fun _ => 0, []⟩ Event.xfer_complete).frame_num < 4294967295 := by
  decide

/-- C5 (amended): over the steps of the streaming state, with `frame_num` an `unsigned`
value: a completion event takes `frame_num` to `(frame_num + 1) mod 2^32`, which is
`frame_num + 1` whenever `frame_num < UINT_MAX`; a tick while streaming leaves it
unchanged, whatever the transport answers; a tick while not streaming sets it to 0; and
it decreases only on a tick while not streaming or on the completion event at
`frame_num = UINT_MAX`. -/
theorem frame_num_step (W H : Nat) (s : VideoState) (hs : s.frame_num < UINT_RANGE) :
    (step W H s Event.xfer_complete).frame_num = (s.frame_num + 1) % UINT_RANGE ∧
    (s.frame_num < UINT_RANGE - 1 →
      (step W H s Event.xfer_complete).frame_num = s.frame_num + 1) ∧
    (∀ ok, (step W H s (Event.tick true ok)).frame_num = s.frame_num) ∧
    (∀ ok, (step W H s (Event.tick false ok)).frame_num = 0) ∧
    (∀ e, (step W H s e).frame_num < s.frame_num →
      (∃ ok, e = Event.tick false ok) ∨
      (e = Event.xfer_complete ∧ s.frame_num = UINT_RANGE - 1)) := by
  have hc : (step W H s Event.xfer_complete).frame_num = (s.frame_num + 1) % UINT_RANGE := rfl
  refine ⟨hc, ?_, fun _ => rfl, fun _ => rfl, ?_⟩
  · intro h
    rw [hc]
    exact Nat.mod_eq_of_lt (by omega)
  · intro e he
    cases e with
    | tick streaming ok =>
      cases streaming with
      | false => exact Or.inl ⟨ok, rfl⟩
      | true => exact absurd he (Nat.lt_irrefl _)
    | xfer_complete =>
      refine Or.inr ⟨rfl, ?_⟩
      rw [hc] at he
      unfold UINT_RANGE at *
      omega

theorem frame_num_step_witness :
    boot.frame_num < UINT_RANGE ∧
    (step 16 2 boot Event.xfer_complete).frame_num = boot.frame_num + 1 ∧
    (step 16 2 boot (Event.tick true false)).frame_num = boot.frame_num :=
  ⟨by decide, (frame_num_step 16 2 boot (by decide)).2.1 (by decide),
    (frame_num_step 16 2 boot (by decide)).2.2.1 false⟩

/-- C6, as stated, fails for a 128 x 96 frame: after the tick that submits phase 1, a
tick while not streaming and a further streaming tick (no completion event in between)
repaint the buffer for phase 0, and byte 24 changes. -/
theorem resubmission_counterexample :
    (run 128 96 boot [Event.tick true true, Event.xfer_complete, Event.tick true true]).frame_num
      = 1 ∧
    Event.xfer_complete ∉ [Event.tick false false, Event.tick true true] ∧
    (run 128 96
        (run 128 96 boot [Event.tick true true, Event.xfer_complete, Event.tick true true])
        [Event.tick false false, Event.tick true true]).frame_buffer 24
      ≠ (run 128 96 boot
          [Event.tick true true, Event.xfer_complete, Event.tick true true]).frame_buffer 24 := by
  set_option maxRecDepth 1000000 in decide

/-- C6 (amended): for every state in which a streaming tick has submitted
`frame_buffer` at phase `p`, every run of further streaming ticks with no completion
event and no tick while not streaming in between keeps `frame_num` at `p` and leaves
every byte of `frame_buffer` equal to its value at submission, whatever the transport
answered and for every `FRAME_WIDTH` and `FRAME_HEIGHT`. -/
theorem resubmission_keeps_buffer (W H : Nat) (s : VideoState) (ok : Bool) (oks : List Bool) :
    (run W H (step W H s (Event.tick true ok))
        (oks.map (fun o => Event.tick true o))).frame_num = s.frame_num ∧
    ∀ a, a < W * H * 16 / 8 →
      (run W H (step W H s (Event.tick true ok))
          (oks.map (fun o => Event.tick true o))).frame_buffer a
        = (step W H s (Event.tick true ok)).frame_buffer a :=
  streaming_ticks_keep W H oks s ok

theorem resubmission_keeps_buffer_witness :
    40 < 24 * 2 * 16 / 8 ∧
    (run 24 2 (step 24 2 ⟨3, fun a => a, []⟩ (Event.tick true true))
        ([false, true].map (fun o => Event.tick true o))).frame_num = 3 ∧
    (run 24 2 (step 24 2 ⟨3, fun a => a, []⟩ (Event.tick true true))
        ([false, true].map (fun o => Event.tick true o))).frame_buffer 40
      = (step 24 2 ⟨3, fun a => a, []⟩ (Event.tick true true)).frame_buffer 40 :=
  ⟨by decide,
    (resubmission_keeps_buffer 24 2 ⟨3, fun a => a, []⟩ true [false, true]).1,
    (resubmission_keeps_buffer 24 2 ⟨3, fun a => a, []⟩ true [false, true]).2 40 (by decide)⟩

/-- C7, as stated, fails: whatever value `VIDEO_ERROR_NONE` has and whichever frame
interval is the supported one, some commit parameter set with another interval gets
`VIDEO_ERROR_NONE` back. -/
theorem commit_rejects_counterexample :
    ¬ ∃ (VIDEO_ERROR_NONE : Int) (supported : Nat),
      ∀ parameters : video_probe_and_commit_control_t,
        parameters.dwFrameInterval ≠ supported →
        (tud_video_commit_cb VIDEO_ERROR_NONE parameters boot).1 ≠ VIDEO_ERROR_NONE :=
  fun ⟨_, supported, h⟩ => h ⟨1, 1, supported + 1⟩ (Nat.succ_ne_self supported) rfl

/-- C7 (amended): `tud_video_commit_cb` validates nothing: for every commit parameter
set, whatever its frame interval, it returns `VIDEO_ERROR_NONE`, and the stream state is
left unchanged. -/
theorem commit_accepts (VIDEO_ERROR_NONE : Int) (parameters : video_probe_and_commit_control_t)
    (s : VideoState) :
    (tud_video_commit_cb VIDEO_ERROR_NONE parameters s).1 = VIDEO_ERROR_NONE ∧
    (tud_video_commit_cb VIDEO_ERROR_NONE parameters s).2 = s :=
  ⟨rfl, rfl⟩

/-- C8, as stated, fails for a frame 24 pixels wide: ten rounds from the boot state end
with `frame_num = 10`, but byte 28 of the buffer handed over on tick 0 is the 0 the boot
buffer held, while `fill_color_bar` for phase 0 leaves a 7 there when the buffer held 7:
the content is not a function of the phase. -/
theorem ten_rounds_counterexample :
    (run 24 1 boot (rounds 10)).frame_num = 10 ∧
    28 < 24 * 1 * 16 / 8 ∧
    ((run 24 1 boot (rounds 10)).xfers.getD 0 (fun _ => 255)) 28 = 0 ∧
    (fill_color_bar 24 1 (fun _ => 7) 0).bytes 28 = 7 ∧
    ((run 24 1 boot (rounds 10)).xfers.getD 0 (fun _ => 255)) 28
      ≠ (fill_color_bar 24 1 (fun _ => 7) 0).bytes 28 := by
  decide

/-- C8 (amended): from the boot state, with the stream streaming throughout, ten rounds
"tick, then completion" end with `frame_num = 10` and ten buffers handed to
`tud_video_n_frame_xfer`, for every `FRAME_WIDTH` and `FRAME_HEIGHT`. The buffer handed
over on tick `k` (`k < 10`) is the output of `fill_color_bar` for phase `k` on the buffer
that tick found (the boot buffer for `k = 0`, the buffer of tick `k - 1` after that), and
for `FRAME_WIDTH` a positive multiple of 16 it is, byte for byte, the output of
`fill_color_bar` for phase `k` from any buffer. -/
theorem ten_rounds (W H : Nat) :
    (run W H boot (rounds 10)).frame_num = 10 ∧
    (run W H boot (rounds 10)).xfers.length = 10 ∧
    ∀ k, k < 10 → ∃ b,
      (run W H boot (rounds 10)).xfers.get? k = some (fill_color_bar W H b k).bytes ∧
      (k = 0 → b = boot.frame_buffer) ∧
      (∀ i, k = i + 1 → (run W H boot (rounds 10)).xfers.get? i = some b) ∧
      (16 ∣ W → 0 < W → ∀ (buffer : Nat → Nat) (a : Nat), a < W * H * 16 / 8 →
        (fill_color_bar W H b k).bytes a = (fill_color_bar W H buffer k).bytes a) := by
  obtain ⟨h1, h2, _, h4⟩ := rounds_run W H 10 boot (by decide)
  refine ⟨by rw [h1]; rfl, by rw [h2]; rfl, fun k hk => ?_⟩
  obtain ⟨b, hb, hb0, hbs⟩ := h4 k hk
  have e1 : ∀ j, boot.xfers.length + j = j := fun j => Nat.zero_add j
  have e2 : boot.frame_num + k = k := Nat.zero_add k
  rw [e1, e2] at hb
  refine ⟨b, hb, hb0, fun i hi => ?_, fun hW hpos buffer a ha => ?_⟩
  · have h := hbs i hi
    rw [e1] at h
    exact h
  · obtain ⟨nb, rfl⟩ := hW
    exact fill_color_bar_indep nb H (by omega) _ _ _ a ha

theorem ten_rounds_witness :
    (16 ∣ 16 ∧ 0 < 16 ∧ 3 < 10 ∧ 50 < 16 * 2 * 16 / 8) ∧
    (run 16 2 boot (rounds 10)).frame_num = 10 ∧
    ∃ b, (run 16 2 boot (rounds 10)).xfers.get? 3 = some (fill_color_bar 16 2 b 3).bytes ∧
      (fill_color_bar 16 2 b 3).bytes 50 = (fill_color_bar 16 2 (fun a => a) 3).bytes 50 :=
  ⟨by decide, (ten_rounds 16 2).1,
    ((ten_rounds 16 2).2.2 3 (by decide)).elim
      (fun b h => ⟨b, h.1, h.2.2.2 (by decide) (by decide) (fun a => a) 50 (by decide)⟩)⟩

end VideoCapture

/-! ## The status LED -/

/-- C9: from any prior state of the blink timer, unmount sets its period to 250 ms,
mount to 1000 ms, suspend to 2500 ms for either value of `remote_wakeup_en`, resume to
1000 ms while `tud_mounted()` is true and to 250 ms while it is false; the new timer does
not depend on the previous one, and the callbacks of `cdc_msc_zephyr` set the same
timer as those of `video_capture_zephyr`. -/
theorem blink_period_table (t t' : k_timer) (remote_wakeup_en : Bool) :
    (video_capture_zephyr.tud_umount_cb t = ⟨250, 250⟩ ∧
     video_capture_zephyr.tud_mount_cb t = ⟨1000, 1000⟩ ∧
     video_capture_zephyr.tud_suspend_cb remote_wakeup_en t = ⟨2500, 2500⟩ ∧
     video_capture_zephyr.tud_resume_cb true t = ⟨1000, 1000⟩ ∧
     video_capture_zephyr.tud_resume_cb false t = ⟨250, 250⟩) ∧
    (video_capture_zephyr.tud_umount_cb t = video_capture_zephyr.tud_umount_cb t' ∧
     video_capture_zephyr.tud_mount_cb t = video_capture_zephyr.tud_mount_cb t' ∧
     video_capture_zephyr.tud_suspend_cb remote_wakeup_en t
       = video_capture_zephyr.tud_suspend_cb remote_wakeup_en t' ∧
     ∀ mounted, video_capture_zephyr.tud_resume_cb mounted t
       = video_capture_zephyr.tud_resume_cb mounted t') ∧
    (cdc_msc_zephyr.tud_umount_cb t = video_capture_zephyr.tud_umount_cb t ∧
     cdc_msc_zephyr.tud_mount_cb t = video_capture_zephyr.tud_mount_cb t ∧
     cdc_msc_zephyr.tud_suspend_cb remote_wakeup_en t
       = video_capture_zephyr.tud_suspend_cb remote_wakeup_en t ∧
     ∀ mounted, cdc_msc_zephyr.tud_resume_cb mounted t
       = video_capture_zephyr.tud_resume_cb mounted t) := by
  refine ⟨⟨rfl, rfl, rfl, rfl, rfl⟩, ⟨rfl, rfl, rfl, ?_⟩, ⟨rfl, rfl, rfl, ?_⟩⟩
  · intro mounted; cases mounted <;> rfl
  · intro mounted; cases mounted <;> rfl
